import Mathlib

/-!
Verification of the polyline codec and route-geometry utilities of
`src/helper/polyline.ts`.

Modelling conventions:
* JS numbers are modelled as exact rationals (`ℚ`); the codec works on
  integers after scaling, so all codec arithmetic is exact.
* JS strings are modelled as lists of UTF-16 code units (`List ℕ`).
* `charCodeAt` past the end of the string returns `NaN`; `NaN & 0x1f = 0`
  and `NaN >= 0x20` is `false`, which the decoding model reproduces by
  treating an exhausted input as a chunk terminator contributing no bits.
* The spherical trigonometry (haversine distance, bearing, destination)
  is real-valued and transcendental; the route-geometry model is
  parameterised over those three functions (`GeoFns`).  Every theorem
  about the route geometry holds for every instantiation, in particular
  for the actual haversine instantiation.
-/

/-- A JS string as its list of UTF-16 code units. -/
abbrev JSString := List ℕ

/-- A coordinate pair `[latitude, longitude]`. -/
abbrev LatLng := ℚ × ℚ

namespace Polyline

/-- Rounding helper `py2_round` from `polyline.ts`:
`Math.floor(Math.abs(value) + 0.5) * (value >= 0 ? 1 : -1)`. -/
def py2_round (value : ℚ) : ℤ :=
  if 0 ≤ value then ⌊value + 1/2⌋ else -⌊-value + 1/2⌋

/-- The chunk-emission loop of `_encode` in `polyline.ts`: while
`coordinate >= 0x20` emit `(0x20 | (coordinate & 0x1f)) + 63` and shift
right by 5 bits; finally emit `coordinate + 63`.  For `coordinate % 32 < 32`
the bitwise `0x20 | (coordinate & 0x1f)` equals `0x20 + coordinate % 32`. -/
def chunksOf (coordinate : ℕ) : List ℕ :=
  if h : coordinate < 32 then [coordinate + 63]
  else (32 + coordinate % 32 + 63) :: chunksOf (coordinate / 32)
termination_by coordinate
decreasing_by exact Nat.div_lt_self (by omega) (by omega)

/-- Helper `_encode` from `polyline.ts`: round both scaled endpoints, take the
delta, zig-zag it to a non-negative integer and emit base-32 chunks. -/
def _encode (current previous factor : ℚ) : JSString :=
  let c := py2_round (current * factor)
  let p := py2_round (previous * factor)
  let coordinate := (c - p) * 2
  let coordinate := if coordinate < 0 then -coordinate - 1 else coordinate
  chunksOf coordinate.toNat

/-- The loop of `encode` over the points after the first one: each point is
encoded as two deltas against the previous point. -/
def encodeAux (factor : ℚ) : LatLng → List LatLng → JSString
  | _, [] => []
  | b, a :: rest =>
    _encode a.1 b.1 factor ++ _encode a.2 b.2 factor ++ encodeAux factor a rest

/-- Function `encode` from `polyline.ts`.  The precision is a natural number; the
source falls back to 5 when the precision is not an integer, which cannot
happen for a `ℕ` precision. -/
def encode (coordinates : List LatLng) (precision : ℕ) : JSString :=
  match coordinates with
  | [] => []
  | c :: rest =>
    let factor : ℚ := 10 ^ precision
    _encode c.1 0 factor ++ _encode c.2 0 factor ++ encodeAux factor c rest

/-- The `do { byte = str.charCodeAt(index++) - 63; result += (byte & 0x1f) *
shift; shift *= 32 } while (byte >= 0x20)` loop of `decode`.  Reading past
the end of the string yields `NaN`, for which `NaN & 0x1f = 0` and
`NaN >= 0x20` is false, so an exhausted input terminates the chunk.
`byte & 0x1f` on a (possibly negative) 32-bit integer equals `byte.emod 32`.
Returns the accumulated value and the unconsumed rest of the string. -/
def readValue : JSString → ℕ → ℕ → ℕ × JSString
  | [], _, result => (result, [])
  | c :: rest, shift, result =>
    let byte : ℤ := (c : ℤ) - 63
    let result := result + (byte % 32).toNat * shift
    if 32 ≤ byte then readValue rest (shift * 32) result else (result, rest)

/-- Computes `result & 1 ? (-result - 1) / 2 : result / 2` (exact integer division
in both branches). -/
def changeOf (result : ℕ) : ℤ :=
  if result % 2 = 1 then (-(result : ℤ) - 1) / 2 else (result : ℤ) / 2

theorem readValue_length_le (l : JSString) (shift result : ℕ) :
    (readValue l shift result).2.length ≤ l.length := by
  induction l generalizing shift result with
  | nil => simp [readValue]
  | cons c rest ih =>
    simp only [readValue]
    split
    · exact le_trans (ih _ _) (by simp)
    · simp

theorem readValue_length_lt (c : ℕ) (rest : JSString) (shift result : ℕ) :
    (readValue (c :: rest) shift result).2.length < (c :: rest).length := by
  simp only [readValue]
  split
  · exact lt_of_le_of_lt (readValue_length_le _ _ _) (by simp)
  · simp

/-- The main loop of `decode`: one iteration decodes two chunked values,
updates the running latitude/longitude totals and pushes the scaled pair. -/
def decodeAux (factor : ℚ) : JSString → ℤ → ℤ → List LatLng
  | [], _, _ => []
  | c :: rest, lat, lng =>
    let r1 := readValue (c :: rest) 1 0
    let latitude_change := changeOf r1.1
    let r2 := readValue r1.2 1 0
    let longitude_change := changeOf r2.1
    let lat' := lat + latitude_change
    let lng' := lng + longitude_change
    ((lat' : ℚ) / factor, (lng' : ℚ) / factor) :: decodeAux factor r2.2 lat' lng'
termination_by l => l.length
decreasing_by
  exact lt_of_le_of_lt (readValue_length_le _ _ _) (readValue_length_lt _ _ _ _)

/-- Function `decode` from `polyline.ts`: decodes to `[latitude, longitude]` pairs. -/
def decode (str : JSString) (precision : ℕ) : List LatLng :=
  decodeAux (10 ^ precision) str 0 0

/-- The main loop of `decodeLongLat`, a verbatim copy of the `decode` loop
in the source except that it pushes `[lng, lat]` instead of `[lat, lng]`. -/
def decodeLongLatAux (factor : ℚ) : JSString → ℤ → ℤ → List LatLng
  | [], _, _ => []
  | c :: rest, lat, lng =>
    let r1 := readValue (c :: rest) 1 0
    let latitude_change := changeOf r1.1
    let r2 := readValue r1.2 1 0
    let longitude_change := changeOf r2.1
    let lat' := lat + latitude_change
    let lng' := lng + longitude_change
    ((lng' : ℚ) / factor, (lat' : ℚ) / factor) ::
      decodeLongLatAux factor r2.2 lat' lng'
termination_by l => l.length
decreasing_by
  exact lt_of_le_of_lt (readValue_length_le _ _ _) (readValue_length_lt _ _ _ _)

/-- Function `decodeLongLat` from `polyline.ts`: decodes to `[longitude, latitude]`
pairs. -/
def decodeLongLat (str : JSString) (precision : ℕ) : List LatLng :=
  decodeLongLatAux (10 ^ precision) str 0 0

end Polyline

namespace VietmapPolyline

/-- Record `NearestLatLngResult` from `polyline.ts`. -/
structure NearestLatLngResult where
  point : LatLng
  distance : ℚ
  index : ℕ
  location : ℚ
deriving DecidableEq, Repr

/-- The real-valued spherical kernels of `polyline.ts`, kept abstract:
`dist from to` is `_distance from to unit` (haversine scaled by the unit
factor), `bearing` is `_bearing`, and `destination origin d b` is
`_destination origin d b unit`.  The route-geometry theorems below hold
for every instantiation of these three functions. -/
structure GeoFns where
  dist : LatLng → LatLng → ℚ
  bearing : LatLng → LatLng → ℚ
  destination : LatLng → ℚ → ℚ → LatLng

/-- Helper `_intersects` from `polyline.ts` (planar line/line intersection in
lng/lat treated as x/y), on two 2-point lines given as pairs.  The source
throws when either array argument does not have exactly two entries; the
call sites always pass two-point lines, which the pair type enforces. -/
def _intersects (line1 line2 : LatLng × LatLng) : Option LatLng :=
  let x1 := line1.1.2
  let y1 := line1.1.1
  let x2 := line1.2.2
  let y2 := line1.2.1
  let x3 := line2.1.2
  let y3 := line2.1.1
  let x4 := line2.2.2
  let y4 := line2.2.1
  let denom := (y4 - y3) * (x2 - x1) - (x4 - x3) * (y2 - y1)
  if denom = 0 then none
  else
    let numeA := (x4 - x3) * (y1 - y3) - (y4 - y3) * (x1 - x3)
    let numeB := (x2 - x1) * (y1 - y3) - (y2 - y1) * (x1 - x3)
    let uA := numeA / denom
    let uB := numeB / denom
    if 0 ≤ uA ∧ uA ≤ 1 ∧ 0 ≤ uB ∧ uB ≤ 1 then
      some (y1 + uA * (y2 - y1), x1 + uA * (x2 - x1))
    else none

/-- The loop body of `_nearestLatLngOnLine`, iterating over consecutive
segments.  Arguments: current segment start, remaining vertices, current
index `i`, accumulated `length`, incumbent `nearest`, recorded `stopP`.
Returns the final `(nearest, stopP)` pair. -/
def nearestAux (g : GeoFns) (point : LatLng) :
    LatLng → List LatLng → ℕ → ℚ →
      Option NearestLatLngResult → Option NearestLatLngResult →
      Option NearestLatLngResult × Option NearestLatLngResult
  | _, [], _, _, nearest, stopP => (nearest, stopP)
  | startLatLng, stopLatLng :: rest, i, length, nearest, stopP =>
    let sectionLength := g.dist startLatLng stopLatLng
    let start : NearestLatLngResult :=
      ⟨startLatLng, g.dist point startLatLng, i, length⟩
    let stop : NearestLatLngResult :=
      ⟨stopLatLng, g.dist point stopLatLng, i + 1, length + sectionLength⟩
    let heightDistance := max start.distance stop.distance
    let direction := g.bearing startLatLng stopLatLng
    let perpendicular1 := g.destination point heightDistance (direction + 90)
    let perpendicular2 := g.destination point heightDistance (direction - 90)
    let intersectionLatLng :=
      _intersects (perpendicular1, perpendicular2) (startLatLng, stopLatLng)
    let intersection : Option NearestLatLngResult :=
      intersectionLatLng.map fun q =>
        ⟨q, g.dist point q, i, length + g.dist startLatLng q⟩
    let n1 : NearestLatLngResult :=
      match nearest with
      | none => start
      | some n => if start.distance < n.distance then start else n
    let n2 := if stop.distance < n1.distance then stop else n1
    let stopP2 := if stop.distance < n1.distance then some stop else stopP
    let n3 : NearestLatLngResult :=
      match intersection with
      | none => n2
      | some it => if it.distance < n2.distance then it else n2
    nearestAux g point stopLatLng rest (i + 1) (length + sectionLength)
      (some n3) stopP2

/-- Function `_nearestLatLngOnLine` from `polyline.ts`.  The loop over
`i < line.length - 1` never runs for an empty or single-point line. -/
def _nearestLatLngOnLine (g : GeoFns) (line : List LatLng) (point : LatLng)
    (isGetStop : Bool) : Option NearestLatLngResult :=
  let res :=
    match line with
    | [] => ((none : Option NearestLatLngResult),
             (none : Option NearestLatLngResult))
    | a :: rest => nearestAux g point a rest 0 0 none none
  if isGetStop then res.2 else res.1

/-- Public `nearestLatLngOnLine` (non-stop mode). -/
def nearestLatLngOnLine (g : GeoFns) (line : List LatLng) (point : LatLng) :
    Option NearestLatLngResult :=
  _nearestLatLngOnLine g line point false

/-- Function `splitRouteByLatLng` from `polyline.ts`.  In the source the slice
bounds are `res?.index ?? -1 + 1`; by JS operator precedence this parses
as `res?.index ?? (-1 + 1)`, i.e. the nearest stop vertex's index when one
was found and `0` otherwise.  `slice(0, idx)` is `take idx` and
`slice(idx, length)` is `drop idx`. -/
def splitRouteByLatLng (g : GeoFns) (line : List LatLng) (point : LatLng)
    (snapInputLatLngToResult : Bool) : List LatLng × List LatLng :=
  let res := _nearestLatLngOnLine g line point true
  let idx : ℕ :=
    match res with
    | some r => r.index
    | none => 0
  let line1 := line.take idx
  let line1 := if snapInputLatLngToResult then line1 ++ [point] else line1
  let line2 := line.drop idx
  let line2 := if snapInputLatLngToResult then point :: line2 else line2
  (line1, line2)

/-- The candidates evaluated by the `_nearestLatLngOnLine` loop, in
evaluation order: for each segment the start endpoint, then the stop
endpoint, then the valid perpendicular intersection point if any.  The
records are built with exactly the formulas of `nearestAux`. -/
def candidatesAux (g : GeoFns) (point : LatLng) :
    LatLng → List LatLng → ℕ → ℚ → List NearestLatLngResult
  | _, [], _, _ => []
  | startLatLng, stopLatLng :: rest, i, length =>
    let sectionLength := g.dist startLatLng stopLatLng
    let start : NearestLatLngResult :=
      ⟨startLatLng, g.dist point startLatLng, i, length⟩
    let stop : NearestLatLngResult :=
      ⟨stopLatLng, g.dist point stopLatLng, i + 1, length + sectionLength⟩
    let heightDistance := max start.distance stop.distance
    let direction := g.bearing startLatLng stopLatLng
    let perpendicular1 := g.destination point heightDistance (direction + 90)
    let perpendicular2 := g.destination point heightDistance (direction - 90)
    let intersectionLatLng :=
      _intersects (perpendicular1, perpendicular2) (startLatLng, stopLatLng)
    let intersection : Option NearestLatLngResult :=
      intersectionLatLng.map fun q =>
        ⟨q, g.dist point q, i, length + g.dist startLatLng q⟩
    start :: stop :: (intersection.toList ++
      candidatesAux g point stopLatLng rest (i + 1) (length + sectionLength))

/-- All candidates evaluated by `_nearestLatLngOnLine` over a line. -/
def candidates (g : GeoFns) (line : List LatLng) (point : LatLng) :
    List NearestLatLngResult :=
  match line with
  | [] => []
  | a :: rest => candidatesAux g point a rest 0 0

/-- Running minimum with strict replacement, as performed by the loop:
a later candidate replaces the incumbent only when its distance is
strictly lower. -/
def foldStrict (n : NearestLatLngResult) (cs : List NearestLatLngResult) :
    NearestLatLngResult :=
  cs.foldl (fun a c => if c.distance < a.distance then c else a) n

/-- Constant `earthRadius` from `polyline.ts` (6 371 008.8 m). -/
def earthRadius : ℚ := 63710088 / 10

/-- The `factors` table from `polyline.ts`, keyed by the runtime value of
the `Unit` enum (declaration order: meters = 0, millimeters = 1,
centimeters = 2, kilometers = 3, acres = 4, miles = 5, nauticalmiles = 6,
inches = 7, yards = 8, feet = 9, radians = 10, degrees = 11).  Any other
number has no entry, which the source observes as `undefined`. -/
def factors (unit : ℕ) : Option ℚ :=
  match unit with
  | 0 => some earthRadius
  | 1 => some (earthRadius * 1000)
  | 2 => some (earthRadius * 100)
  | 3 => some (earthRadius / 1000)
  | 4 => some (40468564224 / 1000)
  | 5 => some (earthRadius / (1609344 / 1000))
  | 6 => some (earthRadius / 1852)
  | 7 => some (earthRadius * (3937 / 100))
  | 8 => some (earthRadius / (10936 / 10000))
  | 9 => some (earthRadius * (328084 / 100000))
  | 10 => some 1
  | 11 => some (earthRadius / 111325)
  | _ => none

/-- Helper `_radiansToLength` from `polyline.ts`: throws
`` `${unit} units is invalid` `` when the unit has no conversion factor. -/
def _radiansToLength (radians : ℚ) (unit : ℕ) : Except String ℚ :=
  match factors unit with
  | none => Except.error (toString unit ++ " units is invalid")
  | some factor => Except.ok (radians * factor)

/-- Helper `_lengthToRadians` from `polyline.ts`: throws
`` `${unit} units is invalid` `` when the unit has no conversion factor. -/
def _lengthToRadians (distance : ℚ) (unit : ℕ) : Except String ℚ :=
  match factors unit with
  | none => Except.error (toString unit ++ " units is invalid")
  | some factor => Except.ok (distance / factor)

/-- Helper `_distanceRaw` from `polyline.ts`, with the haversine central angle
(`2 * atan2(sqrt a, sqrt (1 - a))`) abstracted as `havRad`; the final unit
conversion is `_radiansToLength` and therefore errors on an unknown unit
regardless of the trigonometric value. -/
def _distance (havRad : LatLng → LatLng → ℚ) (a b : LatLng) (unit : ℕ) :
    Except String ℚ :=
  _radiansToLength (havRad a b) unit

/-- Helper `_destinationRaw` from `polyline.ts`, with the spherical forward
computation after the unit conversion abstracted as `core` (origin, angular
distance in radians, bearing).  The unit conversion `_lengthToRadians`
errors on an unknown unit before any trigonometry is used. -/
def _destination (core : LatLng → ℚ → ℚ → LatLng) (origin : LatLng)
    (distance bearing : ℚ) (unit : ℕ) : Except String LatLng :=
  match _lengthToRadians distance unit with
  | Except.error e => Except.error e
  | Except.ok radians => Except.ok (core origin radians bearing)

end VietmapPolyline

namespace PolylineSpec

/-- Spec-side rounding: "round half away from zero for the absolute value,
then restore sign". -/
def roundHalfAwayFromZero (v : ℚ) : ℤ :=
  if v < 0 then -⌊-v + 1/2⌋ else ⌊v + 1/2⌋

/-- Spec-side zig-zag transform:
`value = delta < 0 ? (-delta*2 - 1) : delta*2`. -/
def specZigzag (delta : ℤ) : ℤ :=
  if delta < 0 then -delta * 2 - 1 else delta * 2

/-- Base-32 digits of a non-negative integer, least significant first. -/
def digits32 (v : ℕ) : List ℕ :=
  if h : v < 32 then [v]
  else v % 32 :: digits32 (v / 32)
termination_by v
decreasing_by exact Nat.div_lt_self (by omega) (by omega)

/-- Set the continuation bit (0x20) on every chunk except the last. -/
def markContinuation : List ℕ → List ℕ
  | [] => []
  | [c] => [c]
  | c :: c' :: rest => (c + 32) :: markContinuation (c' :: rest)

/-- Spec-side chunk emission: base-32 chunks least significant first,
continuation bit on all but the last, then 63 added to every chunk. -/
def chunksSpec (v : ℕ) : List ℕ :=
  (markContinuation (digits32 v)).map (· + 63)

/-- The documented encoding pipeline, assembled from the spec's words:
scale and round every component, per-axis deltas from the previous point
(the first point's delta is from 0), zig-zag, chunk, and concatenate in
path order (latitude then longitude per point).  Empty input yields the
empty string. -/
def encodeSpec (coordinates : List LatLng) (precision : ℕ) : JSString :=
  let factor : ℚ := 10 ^ precision
  let scaled := coordinates.map fun c =>
    (roundHalfAwayFromZero (c.1 * factor), roundHalfAwayFromZero (c.2 * factor))
  let deltas := (List.zip scaled (((0 : ℤ), (0 : ℤ)) :: scaled)).map fun q =>
    (q.1.1 - q.2.1, q.1.2 - q.2.2)
  (deltas.map fun d =>
    chunksSpec (specZigzag d.1).toNat ++ chunksSpec (specZigzag d.2).toNat).flatten

end PolylineSpec

namespace GeoEx

/-- A concrete distance function (squared planar distance) used to
instantiate the abstract spherical kernels in witnesses and
counterexamples; it orders points from a query exactly as the haversine
distance does on the small equatorial configurations used below. -/
def sqDist (a b : LatLng) : ℚ :=
  (a.1 - b.1) ^ 2 + (a.2 - b.2) ^ 2

/-- A degenerate destination function: both perpendicular probe endpoints
coincide with the query point, so `_intersects` always sees a degenerate
probe line (denominator 0) and reports no intersection. -/
def gEx : VietmapPolyline.GeoFns where
  dist := sqDist
  bearing := fun _ _ => 0
  destination := fun p _ _ => p

end GeoEx

namespace Polyline

theorem chunksOf_ne_nil (v : ℕ) : chunksOf v ≠ [] := by
  rw [chunksOf]
  split <;> simp

theorem readValue_chunksOf (v : ℕ) :
    ∀ (rest : JSString) (shift acc : ℕ),
      readValue (chunksOf v ++ rest) shift acc = (acc + v * shift, rest) := by
  induction v using Nat.strong_induction_on with
  | _ v ih =>
    intro rest shift acc
    rw [chunksOf]
    split
    · next h =>
      simp only [List.cons_append, List.nil_append, readValue]
      have hb : ((v + 63 : ℕ) : ℤ) - 63 = (v : ℤ) := by push_cast; ring
      rw [hb]
      have hne : ¬ (32 : ℤ) ≤ (v : ℤ) := by exact_mod_cast not_le.mpr h
      rw [if_neg hne]
      have hm : (((v : ℤ) % 32).toNat) = v := by omega
      rw [hm]
      simp
    · next h =>
      simp only [List.cons_append, readValue]
      have hb : ((32 + v % 32 + 63 : ℕ) : ℤ) - 63 = 32 + ((v % 32 : ℕ) : ℤ) := by
        push_cast; ring
      rw [hb]
      have hle : (32 : ℤ) ≤ 32 + ((v % 32 : ℕ) : ℤ) := by
        have : (0 : ℤ) ≤ ((v % 32 : ℕ) : ℤ) := Int.natCast_nonneg _
        omega
      rw [if_pos hle]
      have hm : ((32 + ((v % 32 : ℕ) : ℤ)) % 32).toNat = v % 32 := by omega
      rw [hm]
      have ihv := ih (v / 32) (Nat.div_lt_self (by omega) (by omega)) rest
        (shift * 32) (acc + v % 32 * shift)
      refine Eq.trans (Eq.trans ?_ ihv) ?_
      · rfl
      · have hv : 32 * (v / 32) + v % 32 = v := Nat.div_add_mod v 32
        have : acc + v % 32 * shift + v / 32 * (shift * 32) = acc + v * shift := by
          calc acc + v % 32 * shift + v / 32 * (shift * 32)
              = acc + (v % 32 + 32 * (v / 32)) * shift := by ring
            _ = acc + v * shift := by rw [show v % 32 + 32 * (v / 32) = v by omega]
        rw [this]

theorem changeOf_zig (d : ℤ) :
    changeOf (if d * 2 < 0 then -(d * 2) - 1 else d * 2).toNat = d := by
  rcases lt_or_le (d * 2) 0 with h | h
  · rw [if_pos h]
    unfold changeOf
    split <;> omega
  · rw [if_neg (not_lt.mpr h)]
    unfold changeOf
    split <;> omega

theorem decodeAux_chunk (f : ℚ) (v1 v2 : ℕ) (tail : JSString) (lat lng : ℤ) :
    decodeAux f (chunksOf v1 ++ (chunksOf v2 ++ tail)) lat lng =
      (((lat + changeOf v1 : ℤ) : ℚ) / f, ((lng + changeOf v2 : ℤ) : ℚ) / f) ::
        decodeAux f tail (lat + changeOf v1) (lng + changeOf v2) := by
  obtain ⟨c1, l1, hc1⟩ := List.exists_cons_of_ne_nil (chunksOf_ne_nil v1)
  rw [hc1, List.cons_append, decodeAux, ← List.cons_append, ← hc1,
    readValue_chunksOf, readValue_chunksOf]
  simp

theorem decodeAux_encodeAux (f : ℚ) :
    ∀ (rest : List LatLng) (b : LatLng),
      decodeAux f (encodeAux f b rest)
          (py2_round (b.1 * f)) (py2_round (b.2 * f)) =
        rest.map (fun c => (((py2_round (c.1 * f) : ℤ) : ℚ) / f,
                            ((py2_round (c.2 * f) : ℤ) : ℚ) / f)) := by
  intro rest
  induction rest with
  | nil => intro b; simp [encodeAux, decodeAux]
  | cons a rest ih =>
    intro b
    rw [encodeAux]
    have henc1 : _encode a.1 b.1 f =
        chunksOf (if (py2_round (a.1 * f) - py2_round (b.1 * f)) * 2 < 0
          then -((py2_round (a.1 * f) - py2_round (b.1 * f)) * 2) - 1
          else (py2_round (a.1 * f) - py2_round (b.1 * f)) * 2).toNat := rfl
    have henc2 : _encode a.2 b.2 f =
        chunksOf (if (py2_round (a.2 * f) - py2_round (b.2 * f)) * 2 < 0
          then -((py2_round (a.2 * f) - py2_round (b.2 * f)) * 2) - 1
          else (py2_round (a.2 * f) - py2_round (b.2 * f)) * 2).toNat := rfl
    rw [henc1, henc2, List.append_assoc, decodeAux_chunk, changeOf_zig, changeOf_zig]
    rw [show py2_round (b.1 * f) + (py2_round (a.1 * f) - py2_round (b.1 * f)) =
        py2_round (a.1 * f) by ring]
    rw [show py2_round (b.2 * f) + (py2_round (a.2 * f) - py2_round (b.2 * f)) =
        py2_round (a.2 * f) by ring]
    rw [ih a]
    simp

theorem encode_eq_encodeAux (coords : List LatLng) (p : ℕ) :
    encode coords p = encodeAux ((10 : ℚ) ^ p) (0, 0) coords := by
  cases coords <;> rfl

theorem floor_half : ⌊(1 / 2 : ℚ)⌋ = 0 := by
  rw [Int.floor_eq_iff]
  norm_num

theorem py2_round_zero : py2_round 0 = 0 := by
  unfold py2_round
  rw [if_pos le_rfl, show (0 : ℚ) + 1 / 2 = 1 / 2 by ring, floor_half]

theorem py2_round_zero_mul (f : ℚ) : py2_round (0 * f) = 0 := by
  rw [show (0 : ℚ) * f = 0 by ring, py2_round_zero]

theorem decode_encode (coords : List LatLng) (p : ℕ) :
    decode (encode coords p) p =
      coords.map (fun c => (((py2_round (c.1 * 10 ^ p) : ℤ) : ℚ) / 10 ^ p,
                            ((py2_round (c.2 * 10 ^ p) : ℤ) : ℚ) / 10 ^ p)) := by
  rw [encode_eq_encodeAux]
  unfold decode
  have h := decodeAux_encodeAux ((10 : ℚ) ^ p) coords (0, 0)
  simpa [py2_round_zero_mul, py2_round_zero] using h

theorem py2_round_intCast (k : ℤ) : py2_round (k : ℚ) = k := by
  unfold py2_round
  split
  · rw [Int.floor_eq_iff]
    constructor
    · linarith
    · linarith
  · have h : -⌊-(k : ℚ) + 1/2⌋ = k := by
      have h1 : ⌊-(k : ℚ) + 1/2⌋ = -k := by
        rw [Int.floor_eq_iff]
        constructor
        · push_cast; linarith
        · push_cast; linarith
      rw [h1]; ring
    exact h

theorem py2_round_lattice (k : ℤ) (f : ℚ) (hf : f ≠ 0) :
    py2_round ((k : ℚ) / f * f) = k := by
  rw [div_mul_cancel₀ _ hf, py2_round_intCast]

theorem _encode_congr (f a b a' b' : ℚ)
    (ha : py2_round (a * f) = py2_round (a' * f))
    (hb : py2_round (b * f) = py2_round (b' * f)) :
    _encode a b f = _encode a' b' f := by
  unfold _encode
  rw [ha, hb]

theorem encodeAux_congr (f : ℚ) :
    ∀ (rest rest' : List LatLng) (b b' : LatLng),
      (rest.map fun c => (py2_round (c.1 * f), py2_round (c.2 * f))) =
        (rest'.map fun c => (py2_round (c.1 * f), py2_round (c.2 * f))) →
      py2_round (b.1 * f) = py2_round (b'.1 * f) →
      py2_round (b.2 * f) = py2_round (b'.2 * f) →
      encodeAux f b rest = encodeAux f b' rest' := by
  intro rest
  induction rest with
  | nil =>
    intro rest' b b' hmap _ _
    cases rest' with
    | nil => rfl
    | cons a t => simp at hmap
  | cons a t ih =>
    intro rest' b b' hmap hb1 hb2
    cases rest' with
    | nil => simp at hmap
    | cons a' t' =>
      simp only [List.map_cons, List.cons.injEq, Prod.mk.injEq] at hmap
      obtain ⟨⟨ha1, ha2⟩, ht⟩ := hmap
      rw [encodeAux, encodeAux]
      rw [_encode_congr f a.1 b.1 a'.1 b'.1 ha1 hb1,
          _encode_congr f a.2 b.2 a'.2 b'.2 ha2 hb2,
          ih t' a a' ht ha1 ha2]

theorem encode_congr (p : ℕ) (seq seq' : List LatLng)
    (h : (seq.map fun c => (py2_round (c.1 * 10 ^ p), py2_round (c.2 * 10 ^ p))) =
      (seq'.map fun c => (py2_round (c.1 * 10 ^ p), py2_round (c.2 * 10 ^ p)))) :
    encode seq p = encode seq' p := by
  rw [encode_eq_encodeAux, encode_eq_encodeAux]
  exact encodeAux_congr _ seq seq' (0, 0) (0, 0) h rfl rfl

theorem encode_decode_encode (seq : List LatLng) (p : ℕ) :
    encode (decode (encode seq p) p) p = encode seq p := by
  have hf : ((10 : ℚ) ^ p) ≠ 0 := by positivity
  rw [decode_encode]
  apply encode_congr
  rw [List.map_map]
  apply List.map_congr_left
  intro c _
  simp only [Function.comp_apply]
  rw [py2_round_lattice _ _ hf, py2_round_lattice _ _ hf]

end Polyline

namespace PolylineSpec

theorem digits32_ne_nil (v : ℕ) : digits32 v ≠ [] := by
  rw [digits32]
  split <;> simp

theorem markContinuation_cons (c : ℕ) (l : List ℕ) (h : l ≠ []) :
    markContinuation (c :: l) = (c + 32) :: markContinuation l := by
  cases l with
  | nil => exact absurd rfl h
  | cons c' t => rfl

theorem chunksSpec_eq_chunksOf (v : ℕ) : chunksSpec v = Polyline.chunksOf v := by
  induction v using Nat.strong_induction_on with
  | _ v ih =>
    rw [Polyline.chunksOf, chunksSpec, digits32]
    split
    · next h => rfl
    · next h =>
      rw [markContinuation_cons _ _ (digits32_ne_nil _)]
      simp only [List.map_cons]
      rw [show v % 32 + 32 + 63 = 32 + v % 32 + 63 by omega]
      congr 1
      exact ih (v / 32) (Nat.div_lt_self (by omega) (by omega))

theorem zig_eq_specZigzag (d : ℤ) :
    (if d * 2 < 0 then -(d * 2) - 1 else d * 2) = specZigzag d := by
  unfold specZigzag
  split_ifs <;> omega

theorem roundHalf_eq_py2_round (v : ℚ) :
    roundHalfAwayFromZero v = Polyline.py2_round v := by
  unfold roundHalfAwayFromZero Polyline.py2_round
  split_ifs with h1 h2
  · linarith
  · rfl
  · rfl
  · linarith

theorem _encode_eq_spec (cur prev f : ℚ) :
    Polyline._encode cur prev f =
      chunksSpec (specZigzag
        (Polyline.py2_round (cur * f) - Polyline.py2_round (prev * f))).toNat := by
  have h : Polyline._encode cur prev f =
      Polyline.chunksOf
        (if (Polyline.py2_round (cur * f) - Polyline.py2_round (prev * f)) * 2 < 0
          then -((Polyline.py2_round (cur * f) - Polyline.py2_round (prev * f)) * 2) - 1
          else (Polyline.py2_round (cur * f) - Polyline.py2_round (prev * f)) * 2).toNat := rfl
  rw [h, zig_eq_specZigzag, chunksSpec_eq_chunksOf]

theorem encodeAux_spec (f : ℚ) :
    ∀ (rest : List LatLng) (b : LatLng),
      Polyline.encodeAux f b rest =
        ((List.zip
            (rest.map fun c =>
              (Polyline.py2_round (c.1 * f), Polyline.py2_round (c.2 * f)))
            ((Polyline.py2_round (b.1 * f), Polyline.py2_round (b.2 * f)) ::
              rest.map fun c =>
                (Polyline.py2_round (c.1 * f), Polyline.py2_round (c.2 * f)))).map
          fun q => chunksSpec (specZigzag (q.1.1 - q.2.1)).toNat ++
                   chunksSpec (specZigzag (q.1.2 - q.2.2)).toNat).flatten := by
  intro rest
  induction rest with
  | nil => intro b; rfl
  | cons a t ih =>
    intro b
    rw [Polyline.encodeAux]
    simp only [List.map_cons, List.zip_cons_cons, List.flatten_cons]
    rw [ih a, _encode_eq_spec, _encode_eq_spec]

theorem encode_eq_encodeSpec (coordinates : List LatLng) (precision : ℕ) :
    Polyline.encode coordinates precision = encodeSpec coordinates precision := by
  rw [Polyline.encode_eq_encodeAux, encodeAux_spec]
  unfold encodeSpec
  simp only [roundHalf_eq_py2_round, List.map_map]
  rw [Polyline.py2_round_zero_mul]
  rfl

theorem decodeLongLatAux_map_swap (f : ℚ) (l : JSString) (lat lng : ℤ) :
    Polyline.decodeLongLatAux f l lat lng =
      (Polyline.decodeAux f l lat lng).map Prod.swap := by
  match l with
  | [] => simp [Polyline.decodeAux, Polyline.decodeLongLatAux]
  | c :: rest =>
    rw [Polyline.decodeAux, Polyline.decodeLongLatAux]
    simp only [List.map_cons]
    rw [decodeLongLatAux_map_swap f _ _ _]
    rfl
termination_by l.length
decreasing_by
  exact lt_of_le_of_lt (Polyline.readValue_length_le _ _ _)
    (Polyline.readValue_length_lt _ _ _ _)

theorem decodeLongLat_map_swap (str : JSString) (precision : ℕ) :
    Polyline.decodeLongLat str precision =
      (Polyline.decode str precision).map Prod.swap :=
  decodeLongLatAux_map_swap _ _ _ _

end PolylineSpec

namespace Polyline

theorem readValue_suffix : ∀ (l : JSString) (shift result : ℕ),
    (readValue l shift result).2 <:+ l := by
  intro l
  induction l with
  | nil => intro s r; simp [readValue]
  | cons c rest ih =>
    intro s r
    simp only [readValue]
    split
    · exact (ih _ _).trans (List.suffix_cons c rest)
    · exact List.suffix_cons c rest

theorem readValue_append_term :
    ∀ (l : JSString) (shift result : ℕ), l ≠ [] →
      (∀ c, l.getLast? = some c → 95 ≤ c) →
      readValue (l ++ [63]) shift result =
        ((readValue l shift result).1,
          if (readValue l shift result).2 = [] then []
          else (readValue l shift result).2 ++ [63]) := by
  intro l
  induction l with
  | nil => intro _ _ h _; exact absurd rfl h
  | cons c rest ih =>
    intro shift result _ hcont
    cases rest with
    | nil =>
      have hc : 95 ≤ c := hcont c (by simp)
      simp only [List.cons_append, List.nil_append, readValue]
      have h32 : (32 : ℤ) ≤ (c : ℤ) - 63 := by omega
      rw [if_pos h32, if_pos h32]
      norm_num [readValue]
    | cons c' t =>
      have hlast : ∀ d, (c' :: t).getLast? = some d → 95 ≤ d := by
        intro d hd
        exact hcont d (by rw [List.getLast?_cons_cons]; exact hd)
      simp only [List.cons_append, readValue]
      by_cases h32 : (32 : ℤ) ≤ (c : ℤ) - 63
      · rw [if_pos h32, if_pos h32]
        exact ih _ _ (by simp) hlast
      · rw [if_neg h32, if_neg h32]
        simp

theorem decodeAux_append_term (f : ℚ) (l : JSString) (lat lng : ℤ)
    (hne : l ≠ []) (hcont : ∀ c, l.getLast? = some c → 95 ≤ c) :
    decodeAux f (l ++ [63]) lat lng = decodeAux f l lat lng := by
  match l, hne with
  | c :: rest, _ =>
    have h1 := readValue_append_term (c :: rest) 1 0 (by simp) hcont
    rw [List.cons_append, decodeAux, decodeAux, ← List.cons_append, h1]
    by_cases h2 : (readValue (c :: rest) 1 0).2 = []
    · rw [if_pos h2, h2]
    · rw [if_neg h2]
      have hlast1 : ∀ d, (readValue (c :: rest) 1 0).2.getLast? = some d → 95 ≤ d := by
        intro d hd
        apply hcont
        obtain ⟨t, ht⟩ := readValue_suffix (c :: rest) 1 0
        rw [← ht, List.getLast?_append_of_ne_nil _ h2]
        exact hd
      rw [readValue_append_term _ 1 0 h2 hlast1]
      by_cases h4 : (readValue ((readValue (c :: rest) 1 0).2) 1 0).2 = []
      · rw [if_pos h4, h4]
      · rw [if_neg h4]
        have hlast2 : ∀ d,
            (readValue ((readValue (c :: rest) 1 0).2) 1 0).2.getLast? = some d →
              95 ≤ d := by
          intro d hd
          apply hlast1
          obtain ⟨t, ht⟩ := readValue_suffix ((readValue (c :: rest) 1 0).2) 1 0
          rw [← ht, List.getLast?_append_of_ne_nil _ h4]
          exact hd
        rw [decodeAux_append_term f _ _ _ h4 hlast2]
termination_by l.length
decreasing_by
  exact lt_of_le_of_lt (readValue_length_le _ _ _) (readValue_length_lt _ _ _ _)

theorem decode_append_term (str : JSString) (precision : ℕ)
    (hne : str ≠ []) (hcont : ∀ c, str.getLast? = some c → 95 ≤ c) :
    decode (str ++ [63]) precision = decode str precision :=
  decodeAux_append_term _ _ _ _ hne hcont

end Polyline

namespace VietmapPolyline

theorem foldStrict_nil (n : NearestLatLngResult) : foldStrict n [] = n := rfl

theorem foldStrict_cons (n c : NearestLatLngResult) (cs : List NearestLatLngResult) :
    foldStrict n (c :: cs) =
      foldStrict (if c.distance < n.distance then c else n) cs := rfl

theorem foldStrict_append (n : NearestLatLngResult)
    (cs ds : List NearestLatLngResult) :
    foldStrict n (cs ++ ds) = foldStrict (foldStrict n cs) ds :=
  List.foldl_append _ _ _ _

theorem nearestAux_fst_fold (g : GeoFns) (point : LatLng) :
    ∀ (rest : List LatLng) (start : LatLng) (i : ℕ) (length : ℚ)
      (n : NearestLatLngResult) (sp : Option NearestLatLngResult),
      (nearestAux g point start rest i length (some n) sp).1 =
        some (foldStrict n (candidatesAux g point start rest i length)) := by
  intro rest
  induction rest with
  | nil => intro start i length n sp; rfl
  | cons stop rest ih =>
    intro start i length n sp
    simp only [nearestAux, candidatesAux]
    rw [ih]
    rcases hio : _intersects
        (g.destination point
            (max (g.dist point start) (g.dist point stop)) (g.bearing start stop + 90),
          g.destination point
            (max (g.dist point start) (g.dist point stop)) (g.bearing start stop - 90))
        (start, stop) with _ | q
    · simp only [hio, Option.map_none', Option.toList_none, List.nil_append,
        foldStrict_cons]
    · simp only [hio, Option.map_some', Option.toList_some, List.singleton_append,
        foldStrict_cons]

theorem nearest_eq_fold (g : GeoFns) (line : List LatLng) (point : LatLng) :
    nearestLatLngOnLine g line point =
      match candidates g line point with
      | [] => none
      | c :: cs => some (foldStrict c cs) := by
  cases line with
  | nil => rfl
  | cons a rest =>
    cases rest with
    | nil => rfl
    | cons stop rest' =>
      simp only [nearestLatLngOnLine, _nearestLatLngOnLine, candidates, Bool.false_eq_true,
        if_false]
      simp only [nearestAux, candidatesAux]
      rw [nearestAux_fst_fold]
      rcases hio : _intersects
          (g.destination point
              (max (g.dist point a) (g.dist point stop)) (g.bearing a stop + 90),
            g.destination point
              (max (g.dist point a) (g.dist point stop)) (g.bearing a stop - 90))
          (a, stop) with _ | q
      · simp only [hio, Option.map_none', Option.toList_none, List.nil_append,
          foldStrict_cons]
      · simp only [hio, Option.map_some', Option.toList_some, List.singleton_append,
          foldStrict_cons]

theorem foldStrict_spec (cs : List NearestLatLngResult) :
    ∀ (n : NearestLatLngResult),
      ∃ l₁ l₂, n :: cs = l₁ ++ foldStrict n cs :: l₂ ∧
        (∀ c ∈ l₁, (foldStrict n cs).distance < c.distance) ∧
        (∀ c ∈ n :: cs, (foldStrict n cs).distance ≤ c.distance) := by
  induction cs with
  | nil =>
    intro n
    exact ⟨[], [], by simp [foldStrict_nil], by simp, by simp [foldStrict_nil]⟩
  | cons c cs ih =>
    intro n
    rw [foldStrict_cons]
    by_cases h : c.distance < n.distance
    · rw [if_pos h]
      obtain ⟨l₁, l₂, hdec, hstrict, hmin⟩ := ih c
      refine ⟨n :: l₁, l₂, by rw [List.cons_append, ← hdec], ?_, ?_⟩
      · intro x hx
        rcases List.mem_cons.mp hx with rfl | hx
        · calc (foldStrict c cs).distance ≤ c.distance := hmin c (by simp)
            _ < x.distance := h
        · exact hstrict x hx
      · intro x hx
        rcases List.mem_cons.mp hx with rfl | hx
        · calc (foldStrict c cs).distance ≤ c.distance := hmin c (by simp)
            _ ≤ x.distance := le_of_lt h
        · exact hmin x hx
    · rw [if_neg h]
      have hnc : n.distance ≤ c.distance := le_of_not_lt h
      obtain ⟨l₁, l₂, hdec, hstrict, hmin⟩ := ih n
      cases l₁ with
      | nil =>
        simp only [List.nil_append] at hdec
        injection hdec with h1 h2
        refine ⟨[], c :: cs, ?_, by simp, ?_⟩
        · simp [← h1]
        · intro x hx
          rcases List.mem_cons.mp hx with rfl | hx
          · rw [← h1]
          · rcases List.mem_cons.mp hx with rfl | hx
            · rw [← h1]; exact hnc
            · exact hmin x (by simp [hx])
      | cons y t =>
        rw [List.cons_append] at hdec
        injection hdec with h1 h2
        subst h1
        have hlt_n : (foldStrict n cs).distance < n.distance :=
          hstrict n (by simp)
        refine ⟨n :: c :: t, l₂, ?_, ?_, ?_⟩
        · conv_rhs => rw [List.cons_append, List.cons_append, ← h2]
        · intro x hx
          rcases List.mem_cons.mp hx with rfl | hx
          · exact hlt_n
          · rcases List.mem_cons.mp hx with rfl | hx
            · exact lt_of_lt_of_le hlt_n hnc
            · exact hstrict x (by simp [hx])
        · intro x hx
          rcases List.mem_cons.mp hx with rfl | hx
          · exact le_of_lt hlt_n
          · rcases List.mem_cons.mp hx with rfl | hx
            · exact le_trans (le_of_lt hlt_n) hnc
            · exact hmin x (by simp [hx])

theorem candidatesAux_dist_shape (g : GeoFns) (point : LatLng) :
    ∀ (rest : List LatLng) (start : LatLng) (i : ℕ) (length : ℚ)
      (c : NearestLatLngResult), c ∈ candidatesAux g point start rest i length →
      ∃ q, c.distance = g.dist point q := by
  intro rest
  induction rest with
  | nil => intro start i length c hc; simp [candidatesAux] at hc
  | cons stop rest ih =>
    intro start i length c hc
    simp only [candidatesAux, List.mem_cons, List.mem_append] at hc
    rcases hc with rfl | hc
    · exact ⟨start, rfl⟩
    rcases hc with rfl | hc
    · exact ⟨stop, rfl⟩
    rcases hc with hio | htail
    · simp only [Option.mem_toList, Option.mem_map] at hio
      obtain ⟨q, _, hq⟩ := hio
      exact ⟨q, by rw [← hq]⟩
    · exact ih stop (i + 1) _ c htail

theorem candidatesAux_tail_vertex (g : GeoFns) (point : LatLng) :
    ∀ (rest : List LatLng) (start : LatLng) (i : ℕ) (length : ℚ)
      (v : LatLng), v ∈ rest →
      ∃ c ∈ candidatesAux g point start rest i length,
        c.distance = g.dist point v := by
  intro rest
  induction rest with
  | nil => intro start i length v hv; simp at hv
  | cons stop rest ih =>
    intro start i length v hv
    rcases List.mem_cons.mp hv with rfl | hv
    · exact ⟨⟨v, g.dist point v, i + 1, length + g.dist start v⟩,
        by simp [candidatesAux], rfl⟩
    · obtain ⟨c, hc, hd⟩ := ih stop (i + 1) (length + g.dist start stop) v hv
      refine ⟨c, ?_, hd⟩
      simp only [candidatesAux, List.mem_cons, List.mem_append]
      exact Or.inr (Or.inr (Or.inr hc))

theorem candidates_vertex_cover (g : GeoFns) (line : List LatLng) (point : LatLng)
    (h2 : 2 ≤ line.length) :
    ∀ v ∈ line, ∃ c ∈ candidates g line point, c.distance = g.dist point v := by
  match line, h2 with
  | a :: stop :: rest, _ =>
    intro v hv
    rcases List.mem_cons.mp hv with rfl | hv
    · exact ⟨⟨v, g.dist point v, 0, 0⟩, by simp [candidates, candidatesAux], rfl⟩
    · exact candidatesAux_tail_vertex g point (stop :: rest) a 0 0 v hv

theorem candidates_dist_shape (g : GeoFns) (line : List LatLng) (point : LatLng)
    (c : NearestLatLngResult) (hc : c ∈ candidates g line point) :
    ∃ q, c.distance = g.dist point q := by
  cases line with
  | nil => simp [candidates] at hc
  | cons a rest => exact candidatesAux_dist_shape g point rest a 0 0 c hc

theorem candidates_ne_nil (g : GeoFns) (line : List LatLng) (point : LatLng)
    (h2 : 2 ≤ line.length) : candidates g line point ≠ [] := by
  match line, h2 with
  | a :: stop :: rest, _ => simp [candidates, candidatesAux]

end VietmapPolyline

section Claims

open Polyline PolylineSpec VietmapPolyline GeoEx

/-- Claim C1 (amended): when `_nearestLatLngOnLine` in stop mode finds a
nearest stop vertex of index `i`, `splitRouteByLatLng` returns
`before = path[0 .. i)` (exclusive of the vertex at `i`: the slice bound
`res?.index ?? -1 + 1` parses as `res?.index ?? 0`) and
`after = path[i .. end]` inclusive, so the split vertex appears only in
`after`; when `snapInputLatLngToResult` is true the query point is
additionally appended to `before` and prepended to `after`. -/
theorem split_slices_around_nearest_vertex (g : GeoFns) (line : List LatLng)
    (point : LatLng) (snap : Bool) (r : NearestLatLngResult)
    (h : _nearestLatLngOnLine g line point true = some r) :
    splitRouteByLatLng g line point snap =
      (line.take r.index ++ (if snap then [point] else []),
       (if snap then [point] else []) ++ line.drop r.index) := by
  unfold splitRouteByLatLng
  rw [h]
  cases snap <;> simp

/-- Claim C1 witness: the amended slice characterisation evaluated on the
concrete path `[(0,0), (0,1), (0,2)]` split at its last vertex. -/
theorem split_slices_around_nearest_vertex_witness :
    splitRouteByLatLng gEx [((0 : ℚ), (0 : ℚ)), (0, 1), (0, 2)] (0, 2) true =
      (([((0 : ℚ), (0 : ℚ)), (0, 1), (0, 2)] : List LatLng).take
          (NearestLatLngResult.mk (0, 2) 0 2 2).index ++
        (if true then [((0 : ℚ), (2 : ℚ))] else []),
       (if true then [((0 : ℚ), (2 : ℚ))] else []) ++
        ([((0 : ℚ), (0 : ℚ)), (0, 1), (0, 2)] : List LatLng).drop
          (NearestLatLngResult.mk (0, 2) 0 2 2).index) :=
  split_slices_around_nearest_vertex gEx
    [((0 : ℚ), (0 : ℚ)), (0, 1), (0, 2)] (0, 2) true ⟨(0, 2), 0, 2, 2⟩
    (by norm_num [_nearestLatLngOnLine, nearestAux, _intersects, gEx, sqDist,
      max_def])

/-- Claim C1 counterexample: for the path `[(0,0), (0,1), (0,2)]` and query
point `(0,2)` the nearest stop vertex has index 2, but the `before` half
(with snapping off) is `[(0,0), (0,1)]`, not the claimed inclusive slice
`path[0 .. 2]` — the vertex at the found index is missing from `before`. -/
theorem split_before_excludes_nearest_vertex_counterexample :
    _nearestLatLngOnLine gEx [((0 : ℚ), (0 : ℚ)), (0, 1), (0, 2)] (0, 2) true =
      some ⟨(0, 2), 0, 2, 2⟩ ∧
    splitRouteByLatLng gEx [((0 : ℚ), (0 : ℚ)), (0, 1), (0, 2)] (0, 2) false =
      ([(0, 0), (0, 1)], [(0, 2)]) ∧
    ([((0 : ℚ), (0 : ℚ)), (0, 1)] : List LatLng) ≠
      ([((0 : ℚ), (0 : ℚ)), (0, 1), (0, 2)] : List LatLng).take (2 + 1) := by
  refine ⟨?_, ?_, ?_⟩
  · norm_num [_nearestLatLngOnLine, nearestAux, _intersects, gEx, sqDist, max_def]
  · norm_num [splitRouteByLatLng, _nearestLatLngOnLine, nearestAux, _intersects,
      gEx, sqDist, max_def]
  · simp

/-- Claim C2 (amended): `decode` never fails on malformed input.  When the
string ends mid-chunk (its last byte still has the continuation bit set,
i.e. last code unit ≥ 95), reading past the end yields `NaN`, which
contributes no bits and terminates the chunk, so `decode` behaves exactly
as if a zero-valued terminator chunk (code unit 63) had been appended and
silently returns the resulting coordinate sequence. -/
theorem decode_malformed_no_error (str : JSString) (precision : ℕ)
    (hne : str ≠ []) (hcont : ∀ c, str.getLast? = some c → 95 ≤ c) :
    Polyline.decode str precision = Polyline.decode (str ++ [63]) precision :=
  (decode_append_term str precision hne hcont).symm

/-- Claim C2 witness: the malformed single-chunk string `"_"` (code 95). -/
theorem decode_malformed_no_error_witness :
    (([95] : JSString) ≠ [] ∧ ∀ c, ([95] : JSString).getLast? = some c → 95 ≤ c) ∧
    Polyline.decode [95] 5 = Polyline.decode ([95] ++ [63]) 5 :=
  ⟨⟨by simp, fun c hc => by simp at hc; omega⟩,
    decode_malformed_no_error [95] 5 (by simp) (fun c hc => by simp at hc; omega)⟩

/-- Claim C2 counterexample: the string `"_"` (code 95) ends mid-chunk (its
continuation bit is set), yet `decode` returns the coordinate list
`[(0, 0)]` — a silently produced partial/garbage result, not a decoding
error (the source can never throw: `charCodeAt` past the end is `NaN` and
the chunk loop simply stops). -/
theorem decode_truncated_returns_silently :
    (∀ c, ([95] : JSString).getLast? = some c → 95 ≤ c) ∧
    Polyline.decode [95] 5 = [((0 : ℚ), (0 : ℚ))] := by
  refine ⟨fun c hc => by simp at hc; omega, ?_⟩
  simp [Polyline.decode, Polyline.decodeAux, Polyline.readValue, Polyline.changeOf]

/-- Claim C3: concatenating the two halves of `splitRouteByLatLng` restores
the original path: with `snapInputLatLngToResult = false` the plain
concatenation `before ++ after` is the original path (no vertex is
duplicated), and with snapping on, removing the duplicated join point
(the query point, appended to `before` and prepended to `after`) restores
the original path's vertex sequence. -/
theorem split_concat_restores_line (g : GeoFns) (line : List LatLng)
    (point : LatLng) :
    (splitRouteByLatLng g line point false).1 ++
        (splitRouteByLatLng g line point false).2 = line ∧
    (splitRouteByLatLng g line point true).1.dropLast ++
        (splitRouteByLatLng g line point true).2.tail = line := by
  unfold splitRouteByLatLng
  constructor
  · simp
  · simp

/-- Claim C4: re-encoding a decoded sequence at the same precision reproduces
the original string exactly — for every string in the image of `encode` at
precision `p`, `encode (decode s p) p = s` — and the decode-encode pair is
idempotent from the second application on. -/
theorem encode_decode_roundtrip_exact (seq : List LatLng) (p : ℕ) :
    Polyline.encode (Polyline.decode (Polyline.encode seq p) p) p =
      Polyline.encode seq p ∧
    Polyline.decode
        (Polyline.encode (Polyline.decode (Polyline.encode seq p) p) p) p =
      Polyline.decode (Polyline.encode seq p) p :=
  ⟨encode_decode_encode seq p, by rw [encode_decode_encode seq p]⟩

/-- Claim C5: `encode` implements the documented pipeline: scale by
`10^precision` and round half away from zero, per-axis deltas from the
previous point (first point against 0), zig-zag transform
`d < 0 ? (-d*2 - 1) : d*2`, 5-bit base-32 chunks least significant first
with the continuation bit 0x20 on all but the last chunk and 63 added to
every chunk, concatenated in path order; empty input yields the empty
string. -/
theorem encode_matches_documented_pipeline (coordinates : List LatLng)
    (precision : ℕ) :
    Polyline.encode coordinates precision = encodeSpec coordinates precision ∧
    Polyline.encode ([] : List LatLng) precision = [] :=
  ⟨encode_eq_encodeSpec coordinates precision, rfl⟩

/-- Claim C6: `decodeLongLat` returns exactly the pairs of `decode` with the
two components of each pair swapped. -/
theorem decodeLongLat_swaps_decode (str : JSString) (precision : ℕ) :
    Polyline.decodeLongLat str precision =
      (Polyline.decode str precision).map Prod.swap :=
  decodeLongLat_map_swap str precision

/-- Claim C7: a unit with no entry in the conversion-factor table makes every
distance and destination computation fail immediately with the
`units is invalid` error — `_radiansToLength`, `_lengthToRadians`, and the
distance/destination computations built on them never fall back to a
default unit. -/
theorem invalid_unit_hard_error (unit : ℕ) (h : factors unit = none) :
    (∀ r, _radiansToLength r unit =
      Except.error (toString unit ++ " units is invalid")) ∧
    (∀ d, _lengthToRadians d unit =
      Except.error (toString unit ++ " units is invalid")) ∧
    (∀ (havRad : LatLng → LatLng → ℚ) (a b : LatLng),
      _distance havRad a b unit =
        Except.error (toString unit ++ " units is invalid")) ∧
    (∀ (core : LatLng → ℚ → ℚ → LatLng) (o : LatLng) (d bearing : ℚ),
      _destination core o d bearing unit =
        Except.error (toString unit ++ " units is invalid")) := by
  refine ⟨?_, ?_, ?_, ?_⟩
  · intro r; unfold _radiansToLength; rw [h]
  · intro d; unfold _lengthToRadians; rw [h]
  · intro havRad a b; unfold _distance _radiansToLength; rw [h]
  · intro core o d bearing; unfold _destination _lengthToRadians; rw [h]

/-- Claim C7 witness: 12 is one past the last `Unit` enum value and has no
conversion factor; every helper rejects it. -/
theorem invalid_unit_hard_error_witness :
    factors 12 = none ∧
    _radiansToLength 1 12 = Except.error (toString 12 ++ " units is invalid") ∧
    _lengthToRadians 1 12 = Except.error (toString 12 ++ " units is invalid") ∧
    _distance (fun _ _ => 0) (0, 0) (0, 1) 12 =
      Except.error (toString 12 ++ " units is invalid") ∧
    _destination (fun p _ _ => p) (0, 0) 1 90 12 =
      Except.error (toString 12 ++ " units is invalid") :=
  ⟨rfl, (invalid_unit_hard_error 12 rfl).1 1,
    (invalid_unit_hard_error 12 rfl).2.1 1,
    (invalid_unit_hard_error 12 rfl).2.2.1 (fun _ _ => 0) (0, 0) (0, 1),
    (invalid_unit_hard_error 12 rfl).2.2.2 (fun p _ _ => p) (0, 0) 1 90⟩

/-- Claim C8: `nearestLatLngOnLine` is the running strict minimum over the
candidates in evaluation order (per segment: start endpoint, stop endpoint,
then any valid perpendicular intersection): the result is a candidate of
minimal distance, and every candidate evaluated before it has strictly
greater distance — an equal-distance candidate never replaces the
incumbent, so the first-evaluated candidate achieving the minimum wins. -/
theorem nearest_first_strict_minimum (g : GeoFns) (line : List LatLng)
    (point : LatLng) :
    (nearestLatLngOnLine g line point = none → candidates g line point = []) ∧
    ∀ r, nearestLatLngOnLine g line point = some r →
      r ∈ candidates g line point ∧
      (∀ c ∈ candidates g line point, r.distance ≤ c.distance) ∧
      ∃ l₁ l₂, candidates g line point = l₁ ++ r :: l₂ ∧
        ∀ c ∈ l₁, r.distance < c.distance := by
  have hf := nearest_eq_fold g line point
  rcases hcs : candidates g line point with _ | ⟨c, cs⟩
  · rw [hcs] at hf
    refine ⟨fun _ => rfl, fun r hr => ?_⟩
    rw [hf] at hr
    cases hr
  · rw [hcs] at hf
    refine ⟨fun h0 => ?_, fun r hr => ?_⟩
    · rw [hf] at h0; cases h0
    · rw [hf] at hr
      injection hr with hreq
      subst hreq
      obtain ⟨l₁, l₂, hdec, hstrict, hmin⟩ := foldStrict_spec cs c
      refine ⟨?_, ?_, l₁, l₂, ?_, hstrict⟩
      · rw [hdec]; simp
      · intro x hx
        exact hmin x hx
      · exact hdec

/-- Claim C8 witness: on the segment `[(0,0), (0,1)]` with query `(0,0)` the
result is the first candidate (the start endpoint, distance 0). -/
theorem nearest_first_strict_minimum_witness :
    (⟨(0, 0), 0, 0, 0⟩ : NearestLatLngResult) ∈
        candidates gEx [((0 : ℚ), (0 : ℚ)), (0, 1)] (0, 0) ∧
      (∀ c ∈ candidates gEx [((0 : ℚ), (0 : ℚ)), (0, 1)] (0, 0),
        (⟨(0, 0), 0, 0, 0⟩ : NearestLatLngResult).distance ≤ c.distance) ∧
      ∃ l₁ l₂, candidates gEx [((0 : ℚ), (0 : ℚ)), (0, 1)] (0, 0) =
          l₁ ++ (⟨(0, 0), 0, 0, 0⟩ : NearestLatLngResult) :: l₂ ∧
        ∀ c ∈ l₁, (⟨(0, 0), 0, 0, 0⟩ : NearestLatLngResult).distance < c.distance :=
  (nearest_first_strict_minimum gEx [((0 : ℚ), (0 : ℚ)), (0, 1)] (0, 0)).2
    ⟨(0, 0), 0, 0, 0⟩
    (by norm_num [nearestLatLngOnLine, _nearestLatLngOnLine, nearestAux,
      _intersects, gEx, sqDist, max_def])

/-- Claim C9: a path with fewer than 2 points has no segments to evaluate
and `nearestLatLngOnLine` returns `null` (the model is total — the source
cannot throw on such inputs). -/
theorem nearest_short_line_none (g : GeoFns) (line : List LatLng)
    (point : LatLng) (h : line.length < 2) :
    nearestLatLngOnLine g line point = none := by
  match line, h with
  | [], _ => rfl
  | [a], _ => rfl

/-- Claim C9 witness: the single-point path. -/
theorem nearest_short_line_none_witness :
    ([((0 : ℚ), (0 : ℚ))] : List LatLng).length < 2 ∧
    nearestLatLngOnLine gEx [((0 : ℚ), (0 : ℚ))] (1, 1) = none :=
  ⟨by simp, nearest_short_line_none gEx [((0 : ℚ), (0 : ℚ))] (1, 1) (by simp)⟩

/-- Claim C10: for a path with at least 2 vertices and a non-negative
distance function (as the haversine distance is), `nearestLatLngOnLine`
returns a result whose distance is non-negative and bounded by the
distance from the query point to every vertex of the path. -/
theorem nearest_le_vertex_distances (g : GeoFns) (line : List LatLng)
    (point : LatLng) (h2 : 2 ≤ line.length)
    (hd : ∀ x y, 0 ≤ g.dist x y) :
    ∃ r, nearestLatLngOnLine g line point = some r ∧ 0 ≤ r.distance ∧
      ∀ v ∈ line, r.distance ≤ g.dist point v := by
  have hf := nearest_eq_fold g line point
  rcases hcs : candidates g line point with _ | ⟨c, cs⟩
  · exact absurd hcs (candidates_ne_nil g line point h2)
  · rw [hcs] at hf
    refine ⟨foldStrict c cs, hf, ?_, ?_⟩
    · obtain ⟨l₁, l₂, hdec, _, _⟩ := foldStrict_spec cs c
      have hmem : foldStrict c cs ∈ candidates g line point := by
        rw [hcs, hdec]; simp
      obtain ⟨q, hq⟩ := candidates_dist_shape g line point _ hmem
      rw [hq]
      exact hd point q
    · intro v hv
      obtain ⟨cv, hcv, hcvd⟩ := candidates_vertex_cover g line point h2 v hv
      obtain ⟨_, _, _, _, hmin⟩ := foldStrict_spec cs c
      rw [← hcvd]
      apply hmin
      rw [hcs] at hcv
      exact hcv

/-- Claim C10 witness: the two-point path `[(0,0), (0,1)]` with query
`(3,3)` under the (non-negative) squared planar distance. -/
theorem nearest_le_vertex_distances_witness :
    2 ≤ ([((0 : ℚ), (0 : ℚ)), (0, 1)] : List LatLng).length ∧
    (∀ x y : LatLng, 0 ≤ gEx.dist x y) ∧
    ∃ r, nearestLatLngOnLine gEx [((0 : ℚ), (0 : ℚ)), (0, 1)] (3, 3) = some r ∧
      0 ≤ r.distance ∧
      ∀ v ∈ ([((0 : ℚ), (0 : ℚ)), (0, 1)] : List LatLng),
        r.distance ≤ gEx.dist (3, 3) v :=
  ⟨by simp, fun x y => by simp only [gEx, sqDist]; positivity,
    nearest_le_vertex_distances gEx [((0 : ℚ), (0 : ℚ)), (0, 1)] (3, 3)
      (by simp) (fun x y => by simp only [gEx, sqDist]; positivity)⟩

end Claims
